import Mathlib

/-!
Shallow embedding of the address-range arithmetic of `include/qemu/range.h`.

All machine integers are modelled as `Nat` with explicit reduction modulo
`2^64` wherever the C code's `uint64_t` arithmetic can wrap.  A `Range` is
the pair of its two `uint64_t` fields; a well-formed value has both fields
below `2^64`.  Fallible C functions returning an error code are modelled as
`Option` (with `none` standing for the error return).
-/

/-- `2^64`, the modulus of `uint64_t` arithmetic. -/
def U64 : Nat := 18446744073709551616

/-- Wrapping 64-bit addition. -/
def add64 (a b : Nat) : Nat := (a + b) % U64

/-- Wrapping 64-bit subtraction `a - b`, for `b ≤ 2^64`. -/
def sub64 (a b : Nat) : Nat := (a + (U64 - b)) % U64

/-- `struct Range`: `begin` is the first byte of the range, `end` the last
byte (the arithmetic in this header treats `end` as inclusive).  Lean
reserves the word after `begin_`'s sibling, so the fields carry a trailing
underscore. -/
structure Range where
  begin_ : Nat
  end_ : Nat
  deriving DecidableEq, Repr

/-- The fields fit in `uint64_t`. -/
def range_wf (r : Range) : Prop := r.begin_ < U64 ∧ r.end_ < U64

/-- `range_empty`: the canonical empty sentinel `{ .begin = 1, .end = 0 }`. -/
def range_empty : Range := ⟨1, 0⟩

/-- `range_invariant`: `begin <= end || begin == end + 1` (the increment
wraps in `uint64_t`). -/
def range_invariant (r : Range) : Prop :=
  r.begin_ ≤ r.end_ ∨ r.begin_ = add64 r.end_ 1

/-- `range_is_empty`: `begin > end`. -/
def range_is_empty (r : Range) : Bool :=
  decide (r.begin_ > r.end_)

/-- `range_overlaps_range`: false when either range is empty, otherwise
`!(range2->end < range1->begin || range1->end < range2->begin)`. -/
def range_overlaps_range (range1 range2 : Range) : Bool :=
  if range_is_empty range1 || range_is_empty range2 then false
  else !(decide (range2.end_ < range1.begin_) || decide (range1.end_ < range2.begin_))

/-- `range_size`: `end - begin + 1` in wrapping `uint64_t` arithmetic. -/
def range_size (r : Range) : Nat := add64 (sub64 r.end_ r.begin_) 1

/-- `range_contains_range`: false when either range is empty, otherwise
`range1->begin <= range2->begin && range1->end >= range2->end`. -/
def range_contains_range (range1 range2 : Range) : Bool :=
  if range_is_empty range1 || range_is_empty range2 then false
  else decide (range1.begin_ ≤ range2.begin_) && decide (range1.end_ ≥ range2.end_)

/-- `range_init`: fails (returns `-ERANGE`, here `none`) when `lob + size`
wraps below `lob`; otherwise sets `begin = lob`, `end = lob + size - 1`
(both computed in wrapping arithmetic). -/
def range_init (lob size : Nat) : Option Range :=
  if add64 lob size < lob then none
  else some ⟨lob, sub64 (add64 lob size) 1⟩

/-- `range_extend`: ignores a zero-valued `extend_by`, replaces a
zero-valued `range` wholesale, and otherwise takes the smaller `begin` and
the larger `end`, the latter compared on `end - 1` so a range ending at
`~0x0LL` survives the comparison. -/
def range_extend (range extend_by : Range) : Range :=
  if extend_by.begin_ = 0 ∧ extend_by.end_ = 0 then range
  else if range.begin_ = 0 ∧ range.end_ = 0 then extend_by
  else
    { begin_ := if range.begin_ > extend_by.begin_ then extend_by.begin_ else range.begin_,
      end_ := if sub64 range.end_ 1 < sub64 extend_by.end_ 1 then extend_by.end_
              else range.end_ }

/-- `range_get_last`: last byte from offset + length, `offset + len - 1`. -/
def range_get_last (offset len : Nat) : Nat := sub64 (add64 offset len) 1

/-- `ranges_can_merge`: `!(range1->end < range2->begin || range2->end < range1->begin)`. -/
def ranges_can_merge (range1 range2 : Range) : Bool :=
  !(decide (range1.end_ < range2.begin_) || decide (range2.end_ < range1.begin_))

/-- `range_merge`: when the ranges can merge, grows `range1` to the union
and returns 0; otherwise returns -1 and leaves `range1` untouched.  The
returned pair is (return code, final value of `*range1`). -/
def range_merge (range1 range2 : Range) : Int × Range :=
  if ranges_can_merge range1 range2 then
    (0, { begin_ := if range1.begin_ > range2.begin_ then range2.begin_ else range1.begin_,
          end_ := if range1.end_ < range2.end_ then range2.end_ else range1.end_ })
  else (-1, range1)

/-- `range_compare`: 0 when both fields coincide, otherwise -1 or 1 by
comparing `range_get_last(begin, end)` of the two ranges. -/
def range_compare (a b : Range) : Int :=
  if a.begin_ = b.begin_ ∧ a.end_ = b.end_ then 0
  else if range_get_last a.begin_ a.end_ < range_get_last b.begin_ b.end_ then -1
  else 1

/-- GLib's `g_list_insert_sorted` with comparison `range_compare`: the new
element goes in front of the first element `x` with `func(data, x) <= 0`,
or at the tail when every comparison is positive. -/
def g_list_insert_sorted (list : List Range) (data : Range) : List Range :=
  match list with
  | [] => [data]
  | x :: rest =>
    if range_compare data x ≤ 0 then data :: x :: rest
    else x :: g_list_insert_sorted rest data

/-- The absorbing phase of the loop in `g_list_insert_sorted_merged`: once
a list node has merged with the inserted data, the following nodes are
merged into it and unlinked for as long as `ranges_can_merge` holds; the
walk stops at the first node that cannot merge. -/
def merge_following (a : Range) : List Range → Range × List Range
  | [] => (a, [])
  | x :: rest =>
    if ranges_can_merge a x then merge_following (range_merge a x).2 rest
    else (a, x :: rest)

/-- The scanning phase of the loop in `g_list_insert_sorted_merged`: walk
the list until a node can merge with `data`; merge there and absorb the
following mergeable nodes.  `none` when no node can merge. -/
def scan_merge (data : Range) : List Range → Option (List Range)
  | [] => none
  | r :: rest =>
    if ranges_can_merge r data then
      let p := merge_following (range_merge r data).2 rest
      some (p.1 :: p.2)
    else Option.map (fun t => r :: t) (scan_merge data rest)

/-- `g_list_insert_sorted_merged`: merge `data` into the first node of the
list that admits it, absorbing subsequent mergeable nodes; when no node
can merge (in particular on the empty list), fall back to a plain sorted
insertion. -/
def g_list_insert_sorted_merged (list : List Range) (data : Range) : List Range :=
  match scan_merge data list with
  | some l => l
  | none => g_list_insert_sorted list data

instance (r : Range) : Decidable (range_invariant r) :=
  decidable_of_iff (r.begin_ ≤ r.end_ ∨ r.begin_ = add64 r.end_ 1) Iff.rfl

instance (r : Range) : Decidable (range_wf r) :=
  decidable_of_iff (r.begin_ < U64 ∧ r.end_ < U64) Iff.rfl

/-- Field-wise description of equality of two ranges. -/
theorem range_eq_iff (a b : Range) :
    (a.begin_ = b.begin_ ∧ a.end_ = b.end_) ↔ a = b := by
  obtain ⟨a1, a2⟩ := a
  obtain ⟨b1, b2⟩ := b
  simp [Range.mk.injEq]

/-- C1 counterexample: with `r1 = [10,14]` built by `range_init 10 5` and
`r2 = [15,20]` built by `range_init 15 6`, `range_merge r1 r2` does not
succeed: `ranges_can_merge` sees `r1.end = 14 < 15 = r2.begin`, so the
call returns -1 and leaves `r1` at `[10,14]` instead of growing it to
`[10,20]`. -/
theorem range_merge_example_touch :
    range_init 10 5 = some ⟨10, 14⟩ ∧ range_init 15 6 = some ⟨15, 20⟩ ∧
    range_merge ⟨10, 14⟩ ⟨15, 20⟩ = (-1, ⟨10, 14⟩) := by decide

/-- C1 amended: touching inclusive-end ranges are not mergeable — with
`r1 = [10,14]` and `r2 = [15,20]` as constructed, `range_merge` fails and
leaves `r1` unchanged; for `range_merge` to succeed and grow `r1` to the
union `[10,20]` the second range must reach `r1`'s last byte, e.g.
`r2 = [14,20]` built by `range_init 14 7`. -/
theorem range_merge_example_overlap :
    range_merge ⟨10, 14⟩ ⟨15, 20⟩ = (-1, ⟨10, 14⟩) ∧
    range_init 14 7 = some ⟨14, 20⟩ ∧
    range_merge ⟨10, 14⟩ ⟨14, 20⟩ = (0, ⟨10, 20⟩) := by decide

/-- C2: for 64-bit `lob` and `size`, `range_init` fails exactly when
`lob + size` wraps below `lob`, and on success with `size > 0` the
constructed range has `range_size` equal to `size`. -/
theorem range_init_spec (lob size : Nat) (hl : lob < U64) (hs : size < U64) :
    (add64 lob size < lob → range_init lob size = none) ∧
    (¬ add64 lob size < lob →
      ∃ r, range_init lob size = some r ∧ (0 < size → range_size r = size)) := by
  constructor
  · intro h
    simp [range_init, h]
  · intro h
    refine ⟨⟨lob, sub64 (add64 lob size) 1⟩, by simp [range_init, h], ?_⟩
    intro hpos
    simp only [range_size, add64, sub64, U64] at *
    omega

/-- C2 witness at `lob = 10`, `size = 5`. -/
theorem range_init_spec_instance :
    ∃ r, range_init 10 5 = some r ∧ (0 < 5 → range_size r = 5) :=
  (range_init_spec 10 5 (by decide) (by decide)).2 (by decide)

/-- C3 counterexample: `range_init 0 0` succeeds (the overflow test
`0 + 0 < 0` is false) and constructs exactly the full-address-space value
`{begin = 0, end = 2^64 - 1}`. -/
theorem range_init_full_range_at_zero :
    range_init 0 0 = some ⟨0, U64 - 1⟩ := by decide

/-- C3 amended: for every 64-bit pair `(lob, size)` other than `(0, 0)`, a
successful `range_init` never constructs the full-address-space value
`{begin = 0, end = 2^64 - 1}`. -/
theorem range_init_never_full_except_zero (lob size : Nat) (hl : lob < U64)
    (hs : size < U64) (h : ¬(lob = 0 ∧ size = 0)) (r : Range)
    (hr : range_init lob size = some r) : r ≠ ⟨0, U64 - 1⟩ := by
  intro heq
  subst heq
  unfold range_init at hr
  split at hr
  · exact Option.noConfusion hr
  · simp only [Option.some.injEq, Range.mk.injEq] at hr
    simp only [add64, sub64, U64] at *
    omega

/-- C3 witness at `lob = 1`, `size = 0`. -/
theorem range_init_never_full_instance : (⟨1, 0⟩ : Range) ≠ ⟨0, U64 - 1⟩ :=
  range_init_never_full_except_zero 1 0 (by decide) (by decide) (by decide)
    ⟨1, 0⟩ (by decide)

/-- C4: `range_compare` returns 0 exactly on field-equal ranges, and
otherwise orders the two ranges by the wrapped last-byte key
`begin + end - 1` (the `range_get_last` helper applied to the fields). -/
theorem range_compare_spec (ra rb : Range) :
    (range_compare ra rb = 0 ↔ ra = rb) ∧
    (ra ≠ rb → range_compare ra rb =
      if range_get_last ra.begin_ ra.end_ < range_get_last rb.begin_ rb.end_
      then -1 else 1) := by
  by_cases he : ra = rb
  · subst he
    refine ⟨by simp [range_compare], fun h => absurd rfl h⟩
  · have hcond : ¬(ra.begin_ = rb.begin_ ∧ ra.end_ = rb.end_) :=
      fun hc => he ((range_eq_iff ra rb).mp hc)
    constructor
    · rw [range_compare, if_neg hcond]
      apply iff_of_false
      · split_ifs <;> simp
      · exact he
    · intro _
      rw [range_compare, if_neg hcond]

/-- C4 witness at `⟨1, 2⟩` and `⟨3, 4⟩`. -/
theorem range_compare_spec_instance :
    range_compare ⟨1, 2⟩ ⟨3, 4⟩ =
      if range_get_last 1 2 < range_get_last 3 4 then -1 else 1 :=
  (range_compare_spec ⟨1, 2⟩ ⟨3, 4⟩).2 (by decide)

/-- C5: for an invariant-satisfying `r` and a non-empty `extend_by` that
is not the zero-valued placeholder `{0, 0}`, the result of
`range_extend r extend_by` contains `extend_by`: its begin is at most
`extend_by`'s begin and its end is at least `extend_by`'s end in
last-byte (`end - 1`, wrapping) order. -/
theorem range_extend_grows (r extend_by : Range) (hinv : range_invariant r)
    (hne : range_is_empty extend_by = false)
    (hz : ¬(extend_by.begin_ = 0 ∧ extend_by.end_ = 0)) :
    (range_extend r extend_by).begin_ ≤ extend_by.begin_ ∧
    sub64 extend_by.end_ 1 ≤ sub64 (range_extend r extend_by).end_ 1 := by
  unfold range_extend
  rw [if_neg hz]
  split_ifs with h2
  · exact ⟨le_refl _, le_refl _⟩
  all_goals exact ⟨by dsimp only; omega, by dsimp only; omega⟩

/-- C5 witness at `r = ⟨1, 5⟩`, `extend_by = ⟨2, 9⟩`. -/
theorem range_extend_grows_instance :
    (range_extend ⟨1, 5⟩ ⟨2, 9⟩).begin_ ≤ 2 ∧
    sub64 9 1 ≤ sub64 (range_extend ⟨1, 5⟩ ⟨2, 9⟩).end_ 1 :=
  range_extend_grows ⟨1, 5⟩ ⟨2, 9⟩ (by decide) (by decide) (by decide)

/-- C6: with `r1 = [10,14]` and `r2 = [16,20]` (one-byte gap),
`range_merge` fails with -1 and leaves `r1` at `[10,14]`; in general,
whenever `ranges_can_merge` is false, `range_merge` returns -1 and its
first argument unmodified. -/
theorem range_merge_no_overlap_spec :
    range_merge ⟨10, 14⟩ ⟨16, 20⟩ = (-1, ⟨10, 14⟩) ∧
    ∀ r1 r2 : Range, ranges_can_merge r1 r2 = false →
      range_merge r1 r2 = (-1, r1) := by
  refine ⟨by decide, ?_⟩
  intro r1 r2 h
  simp [range_merge, h]

/-- C6 witness at `r1 = ⟨10, 14⟩`, `r2 = ⟨16, 20⟩`. -/
theorem range_merge_no_overlap_instance :
    range_merge ⟨10, 14⟩ ⟨16, 20⟩ = (-1, ⟨10, 14⟩) :=
  range_merge_no_overlap_spec.2 ⟨10, 14⟩ ⟨16, 20⟩ (by decide)

/-- C7: inserting `[5,10]`, then `[15,20]`, then `[9,16]` into an empty
sorted collection with `g_list_insert_sorted_merged` yields the single
merged entry `[5,20]`. -/
theorem insert_sorted_merged_example :
    g_list_insert_sorted_merged
      (g_list_insert_sorted_merged
        (g_list_insert_sorted_merged [] ⟨5, 10⟩) ⟨15, 20⟩) ⟨9, 16⟩ =
      [⟨5, 20⟩] := by decide

/-- C8: overlap with the empty sentinel is false on either side, and
`range_overlaps_range` is symmetric. -/
theorem range_overlaps_empty_symm :
    (∀ r : Range, range_invariant r →
      range_overlaps_range r range_empty = false ∧
      range_overlaps_range range_empty r = false) ∧
    (∀ r1 r2 : Range, range_invariant r1 → range_invariant r2 →
      range_overlaps_range r1 r2 = range_overlaps_range r2 r1) := by
  constructor
  · intro r _
    constructor
    · simp [range_overlaps_range, range_is_empty, range_empty]
    · simp [range_overlaps_range, range_is_empty, range_empty]
  · intro r1 r2 _ _
    unfold range_overlaps_range
    cases hb1 : range_is_empty r1 <;> cases hb2 : range_is_empty r2 <;>
      simp [hb1, hb2, Bool.or_comm]

/-- C8 witness at `r = ⟨2, 5⟩` and the pair `⟨2, 5⟩`, `⟨3, 7⟩`. -/
theorem range_overlaps_empty_symm_instance :
    range_overlaps_range ⟨2, 5⟩ range_empty = false ∧
    range_overlaps_range ⟨2, 5⟩ ⟨3, 7⟩ = range_overlaps_range ⟨3, 7⟩ ⟨2, 5⟩ :=
  ⟨(range_overlaps_empty_symm.1 ⟨2, 5⟩ (by decide)).1,
   range_overlaps_empty_symm.2 ⟨2, 5⟩ ⟨3, 7⟩ (by decide) (by decide)⟩

/-- C9: `range_extend` leaves `r` unchanged when `r` already contains
`extend_by`. -/
theorem range_extend_idem_on_contained (r extend_by : Range)
    (hw1 : range_wf r) (hw2 : range_wf extend_by)
    (h1 : range_invariant r) (h2 : range_invariant extend_by)
    (hc : range_contains_range r extend_by = true) :
    range_extend r extend_by = r := by
  unfold range_contains_range range_is_empty at hc
  split_ifs at hc with hemp
  simp only [Bool.and_eq_true, decide_eq_true_eq, ge_iff_le] at hc
  simp only [Bool.or_eq_true, decide_eq_true_eq, not_or, Nat.not_lt] at hemp
  obtain ⟨hw1b, hw1e⟩ := hw1
  obtain ⟨hw2b, hw2e⟩ := hw2
  by_cases hz : extend_by.begin_ = 0 ∧ extend_by.end_ = 0
  · unfold range_extend
    rw [if_pos hz]
  · have hr0 : ¬(r.begin_ = 0 ∧ r.end_ = 0) := by
      rintro ⟨hb0, he0⟩
      exact hz ⟨by omega, by omega⟩
    have hb : (if r.begin_ > extend_by.begin_ then extend_by.begin_
        else r.begin_) = r.begin_ := if_neg (by omega)
    have hnlt : ¬(sub64 r.end_ 1 < sub64 extend_by.end_ 1) := by
      unfold sub64
      unfold U64 at hw1e hw2e ⊢
      omega
    have he : (if sub64 r.end_ 1 < sub64 extend_by.end_ 1 then extend_by.end_
        else r.end_) = r.end_ := if_neg hnlt
    unfold range_extend
    rw [if_neg hz, if_neg hr0, hb, he]

/-- C9 witness at `r = ⟨2, 9⟩`, `extend_by = ⟨3, 5⟩`. -/
theorem range_extend_idem_instance : range_extend ⟨2, 9⟩ ⟨3, 5⟩ = ⟨2, 9⟩ :=
  range_extend_idem_on_contained ⟨2, 9⟩ ⟨3, 5⟩ (by decide) (by decide)
    (by decide) (by decide) (by decide)

/-- C10: `range_extend` preserves `range_invariant`: if both arguments
satisfy `begin <= end || begin == end + 1` (wrapping), so does the
result. -/
theorem range_extend_preserves_invariant (r extend_by : Range)
    (hw1 : range_wf r) (hw2 : range_wf extend_by)
    (h1 : range_invariant r) (h2 : range_invariant extend_by) :
    range_invariant (range_extend r extend_by) := by
  obtain ⟨rb, re⟩ := r
  obtain ⟨bb, be⟩ := extend_by
  simp only [range_wf, range_invariant, range_extend, add64, sub64, U64] at *
  split_ifs <;> dsimp only <;> omega

/-- C10 witness at `r = ⟨1, 5⟩`, `extend_by = ⟨2, 9⟩`. -/
theorem range_extend_preserves_invariant_instance :
    range_invariant (range_extend ⟨1, 5⟩ ⟨2, 9⟩) :=
  range_extend_preserves_invariant ⟨1, 5⟩ ⟨2, 9⟩ (by decide) (by decide)
    (by decide) (by decide)
